import Mathlib

/-
Verification of the Review Reconciliation Engine of
immich-location-history-reconciler, a shallow embedding of the state and
operations of src/app/components/ImagesSearch.vue.

The component keeps four pieces of mutable state:
  * `result`  : the accumulated search response (`useAsyncData`),
  * `page`    : the pagination cursor (a ref starting at 1),
  * `alreadySeen` : the persisted set of hidden asset ids (`useLocalStorage`),
  * `updates` : the pending edit map from asset id to review candidate.
Derived views (`allAssets`, `items`, `confirmedUpdates`) and the operations
(`loadMore` via the Load-more button's `page++`, the filter-change watcher,
`confirm`, `clearHidden`, and the `watch(items)` merge) are embedded below.
External collaborators (the Immich asset store, the timeline estimator and
the geometry adapter) are passed in as function parameters.
-/

set_option maxHeartbeats 1000000

namespace Reconciler

/-- Coordinate pair sent in the `updateAsset` payload (`LatLng` in the code).
JS numbers are modelled as integers; the engine never computes with them. -/
structure LatLng where
  lat : Int
  lng : Int
deriving DecidableEq

/-- The fields of `AssetResponseDto` that the component reads. -/
structure Asset where
  id : String
  fileCreatedAt : Nat
  originalFileName : String
deriving DecidableEq

/-- The `bestEstimate` object of the estimator's result; the code reads
`bestEstimate?.point`. -/
structure BestEstimate where
  point : LatLng
deriving DecidableEq

/-- Result of `estimateLocationAtTime` as destructured by the component:
`{ bestEstimate = null, estimateSource, segments = [] }`.  Segments are
opaque (modelled as `Nat`). -/
structure EstimateResult where
  bestEstimate : Option BestEstimate
  estimateSource : String
  segments : List Nat
deriving DecidableEq

/-- External ports used by the projection: the timeline estimator
(`estimateLocationAtTime`, keyed by the asset's creation timestamp) and the
geometry adapter (`segmentToGeometry`, geometries are opaque `Nat`s). -/
structure Env where
  est : Nat → Option EstimateResult
  s2g : Nat → Option Nat

/-- Review candidate (`Item` in the code). -/
structure Item where
  asset : Asset
  estimatedLocation : Option LatLng
  geometry : List Nat
  confirmEdit : Bool
deriving DecidableEq

/-- Character-level lowercasing of `String.toLowerCase()`. -/
def lowerChars (s : String) : List Char :=
  s.toList.map Char.toLower

/-- Substring containment, the model of `String.prototype.includes`. -/
def hasInfixChars (needle hay : List Char) : Bool :=
  (List.range (hay.length + 1)).any (fun i => List.isPrefixOf needle (hay.drop i))

/-- Model of `asset.originalFileName.toLowerCase().includes("screenshot")`. -/
def isScreenshotName (name : String) : Bool :=
  hasInfixChars "screenshot".toList (lowerChars name)

/-- The candidate projection performed inside `useArrayMap` (the `allAssets`
computed): one asset is mapped through the estimator into an `Item`. -/
def projectAsset (env : Env) (a : Asset) : Item :=
  match env.est a.fileCreatedAt with
  | none =>
      { asset := a
        estimatedLocation := none
        geometry := []
        confirmEdit := false }
  | some r =>
      { asset := a
        estimatedLocation := r.bestEstimate.map (fun b => b.point)
        geometry := r.segments.filterMap env.s2g
        confirmEdit :=
          r.bestEstimate.isSome
            && decide (r.estimateSource = "timelinePath")
            && !(isScreenshotName a.originalFileName) }

/-- The `TransformedSearchResponse` held by `useAsyncData`'s `data` ref. -/
structure SearchResult where
  assets : List Asset
  hasNextPage : Bool
deriving DecidableEq

/-- The component's mutable state. -/
structure State where
  result : Option SearchResult
  page : Int
  alreadySeen : List String
  updates : List (String × Item)
deriving DecidableEq

/-- Accumulated asset list, `result?.value?.assets ?? []`. -/
def accumulated (s : State) : List Asset :=
  match s.result with
  | none => []
  | some r => r.assets

/-- The `allAssets` computed: every accumulated asset, projected. -/
def allAssetsOf (env : Env) (s : State) : List Item :=
  (accumulated s).map (projectAsset env)

/-- The `items` computed: projected candidates whose id is not hidden. -/
def itemsOf (env : Env) (s : State) : List Item :=
  (allAssetsOf env s).filter (fun it => !(decide (it.asset.id ∈ s.alreadySeen)))

/-- Lookup in the pending edit map, `updates.value[id]`.  The map is an
association list because JS object keys are unordered only up to insertion
order; lookup finds the first binding. -/
def lookupU : List (String × Item) → String → Option Item
  | [], _ => none
  | (k', v) :: rest, k => if k' = k then some v else lookupU rest k

/-- Assignment `updates.value[id] = item`: replace the binding in place when
the key exists, append it otherwise (JS object semantics). -/
def insertU : List (String × Item) → String → Item → List (String × Item)
  | [], k, v => [(k, v)]
  | (k', v') :: rest, k, v =>
      if k' = k then (k, v) :: rest else (k', v') :: insertU rest k v

/-- Key list of the pending edit map. -/
def keysOf (m : List (String × Item)) : List String :=
  m.map Prod.fst

/-- One iteration of the first loop of the `watch(items)` merge: insert the
freshly projected item unless the map already holds an entry with a
non-absent `estimatedLocation` for that id. -/
def stepFill (m : List (String × Item)) (item : Item) : List (String × Item) :=
  match lookupU m item.asset.id with
  | none => insertU m item.asset.id item
  | some v =>
      if v.estimatedLocation.isSome then m else insertU m item.asset.id item

/-- First loop of the merge (`for (const item of items) ...`). -/
def insertPhase (m : List (String × Item)) (l : List Item) : List (String × Item) :=
  l.foldl stepFill m

/-- Second loop of the merge (`for (const id in updates.value) ... delete`):
drop every binding whose key is not a visible id. -/
def prunePhase (m : List (String × Item)) (ids : List String) : List (String × Item) :=
  m.filter (fun e => decide (e.1 ∈ ids))

/-- The full `watch(items)` merge of a visible list into the pending map. -/
def mergeUpdates (m : List (String × Item)) (l : List Item) : List (String × Item) :=
  prunePhase (insertPhase m l) (l.map (fun it => it.asset.id))

/-- Reactive flush of the `watch(items)` merge against the current state. -/
def reactMerge (env : Env) (s : State) : State :=
  { s with updates := mergeUpdates s.updates (itemsOf env s) }

/-- Store failure surfaced by `useAsyncData`'s `error` ref. -/
structure FetchError where
  message : String
deriving DecidableEq

/-- One page of `searchAssets` results (`assets.items` / `assets.nextPage`). -/
structure SearchPage where
  items : List Asset
  nextPage : Option Int
deriving DecidableEq

/-- The `useAsyncData` handler: fetch the current `page` from the store and
append it to the previously accumulated assets.  On store failure the error
is surfaced and `data` keeps its previous value. -/
def fetchHandler (store : Int → Except FetchError SearchPage) (s : State) :
    State × Option FetchError :=
  match store s.page with
  | .error e => (s, some e)
  | .ok p =>
      ({ s with
          result := some { assets := accumulated s ++ p.items
                           hasNextPage := p.nextPage.isSome } },
        none)

/-- Re-run of the handler at the current page (initial load, `execute()`),
followed by the reactive merge when the fetch succeeded. -/
def refetchNow (env : Env) (store : Int → Except FetchError SearchPage)
    (s : State) : State × Option FetchError :=
  match fetchHandler store s with
  | (s2, none) => (reactMerge env s2, none)
  | (s2, some e) => (s2, some e)

/-- The Load-more button: `page++`, which re-triggers the handler at the new
page.  This is the code's `fetchNext()`. -/
def loadMore (env : Env) (store : Int → Except FetchError SearchPage)
    (s : State) : State × Option FetchError :=
  refetchNow env store { s with page := s.page + 1 }

/-- Iterated Load-more clicks. -/
def runFetches (env : Env) (store : Int → Except FetchError SearchPage)
    (s : State) : Nat → State
  | 0 => s
  | n + 1 => runFetches env store (loadMore env store s).1 n

/-- Component state at mount: no data, page 1, empty pending map, and
whatever hidden-id set was persisted in local storage. -/
def initState (seen0 : List String) : State :=
  { result := none, page := 1, alreadySeen := seen0, updates := [] }

/-- Accumulated run of an initial fetch followed by `n` Load-more clicks
under one fixed filter (so one fixed `store`). -/
def afterFetches (env : Env) (store : Int → Except FetchError SearchPage)
    (seen0 : List String) (n : Nat) : State :=
  runFetches env store ((refetchNow env store (initState seen0)).1) n

/-- Synchronous part of the filter-change watcher: `clear()` empties the
response, `page.value = 1`, and the `watch(items)` flush then merges the now
empty visible list into the pending map. -/
def filterClear (env : Env) (s : State) : State :=
  reactMerge env { s with result := none, page := 1 }

/-- The whole filter-change watcher: clear, reset the page, then `execute()`
a fresh fetch against the store for the new criteria. -/
def filterChangeReaction (env : Env) (store : Int → Except FetchError SearchPage)
    (s : State) : State × Option FetchError :=
  refetchNow env store (filterClear env s)

/-- Failure of the commit batch (`catch` around `Promise.all`). -/
structure CommitError where
  message : String
deriving DecidableEq

/-- The `confirmedUpdates` computed: pending entries with `confirmEdit`. -/
def confirmedUpdatesOf (s : State) : List Item :=
  (s.updates.map Prod.snd).filter (fun it => it.confirmEdit)

/-- Outcome of one `updateAsset` call for one confirmed edit.  An absent
`estimatedLocation` makes `item.estimatedLocation!.lat` throw, which the
`catch` turns into a commit failure, hence `false` in that case. -/
def itemUpdateOk (updOk : String → LatLng → Bool) (it : Item) : Bool :=
  match it.estimatedLocation with
  | none => false
  | some loc => updOk it.asset.id loc

/-- Ceiling division on integers for a positive divisor, the value of
`Math.ceil(a / b)`. -/
def ceilDivInt (a b : Int) : Int :=
  Int.ediv (a + b - 1) b

/-- JS `x || 1`: only `0` (and `-0`, identical in `Int`) is falsy. -/
def jsOr1 (x : Int) : Int :=
  if x = 0 then 1 else x

/-- The `confirm` function: issue one update per confirmed edit; on any
failure abort with the state untouched; on full success optionally hide the
unaccepted ids, `clear()` the response, empty the pending map, and recompute
the page from the pre-commit visible and confirmed counts.  The delayed
`execute()` scheduled by `setTimeout` is a separate later `refetchNow`. -/
def confirm (env : Env) (updOk : String → LatLng → Bool) (pageSize : Int)
    (hideRest : Bool) (s : State) : State × Option CommitError :=
  let confirmed := confirmedUpdatesOf s
  if confirmed.all (itemUpdateOk updOk) then
    let totalItemsCount : Int := (itemsOf env s).length
    let confirmedUpdatesCount : Int := confirmed.length
    let seenAfter :=
      if hideRest then
        s.alreadySeen ++
          ((s.updates.map Prod.snd).filter (fun it => !it.confirmEdit)).map
            (fun it => it.asset.id)
      else s.alreadySeen
    let s1 : State :=
      { result := none
        page := jsOr1 (ceilDivInt (totalItemsCount - confirmedUpdatesCount) pageSize)
        alreadySeen := seenAfter
        updates := [] }
    (reactMerge env s1, none)
  else (s, some { message := "update failed" })

/-- The `clearHidden` function: delete from the seen set the ids of the
currently projected assets that are hidden (`allAssets` filtered by
membership in `alreadySeen`). -/
def clearHiddenOp (env : Env) (s : State) : State :=
  { s with
      alreadySeen :=
        s.alreadySeen.filter
          (fun x => !(decide (x ∈ (allAssetsOf env s).map (fun it => it.asset.id)))) }

/-- Mutation of one pending entry through the template's bindings
(`updates[asset.id].confirmEdit = ...` and the map's `v-model`): the binding
whose key matches is rewritten in place, every other binding is kept. -/
def updateEntry : List (String × Item) → String → (Item → Item) →
    List (String × Item)
  | [], _, _ => []
  | (k', v') :: rest, k, f =>
      (if k' = k then (k', f v') else (k', v')) :: updateEntry rest k f

/-- The `v-model:confirm-edit` toggle on one card. -/
def setConfirm (s : State) (k : String) (b : Bool) : State :=
  { s with updates := updateEntry s.updates k (fun it => { it with confirmEdit := b }) }

/-- A marker drag on the map: `v-model` writes the new location and the
`@update:model-value` handler sets `confirmEdit = true`. -/
def dragEdit (s : State) (k : String) (loc : LatLng) : State :=
  { s with
      updates := updateEntry s.updates k
        (fun it => { it with estimatedLocation := some loc, confirmEdit := true }) }

/-- One user-triggered transition of the component.  The accept toggle can
only be switched on for an entry whose `estimatedLocation` is present,
because the template disables the control otherwise
(`:disable-confirm="updates[asset.id].estimatedLocation == null || loading"`);
a drag always supplies concrete coordinates. -/
inductive Step : State → State → Prop where
  | load (env : Env) (store : Int → Except FetchError SearchPage) (s : State) :
      Step s (loadMore env store s).1
  | refetch (env : Env) (store : Int → Except FetchError SearchPage) (s : State) :
      Step s (refetchNow env store s).1
  | filterChange (env : Env) (store : Int → Except FetchError SearchPage) (s : State) :
      Step s (filterChangeReaction env store s).1
  | commit (env : Env) (updOk : String → LatLng → Bool) (pageSize : Int)
      (hideRest : Bool) (s : State) :
      Step s (confirm env updOk pageSize hideRest s).1
  | unhide (env : Env) (s : State) :
      Step s (reactMerge env (clearHiddenOp env s))
  | toggleOff (s : State) (k : String) :
      Step s (setConfirm s k false)
  | toggleOn (s : State) (k : String)
      (h : ∃ v, lookupU s.updates k = some v ∧ v.estimatedLocation.isSome = true) :
      Step s (setConfirm s k true)
  | drag (s : State) (k : String) (loc : LatLng) :
      Step s (dragEdit s k loc)

/-- States reachable from a freshly mounted component. -/
def Reachable (seen0 : List String) (s : State) : Prop :=
  Relation.ReflTransGen Step (initState seen0) s

/-- Safety predicate on a pending map: every accepted entry carries a
concrete estimated location, so `item.estimatedLocation!` cannot fail. -/
def SafeUpd (m : List (String × Item)) : Prop :=
  ∀ k v, lookupU m k = some v → v.confirmEdit = true →
    v.estimatedLocation.isSome = true

/-! ### Concrete sample data used to evaluate the model -/

/-- A sample asset. -/
def assetA : Asset :=
  { id := "a", fileCreatedAt := 0, originalFileName := "img" }

/-- A sample coordinate. -/
def locW : LatLng := { lat := 1, lng := 2 }

/-- A sample accepted candidate for `assetA` with a concrete location. -/
def itemA : Item :=
  { asset := assetA, estimatedLocation := some locW, geometry := [],
    confirmEdit := true }

/-- An environment whose estimator never finds an estimate. -/
def envNone : Env := { est := fun _ => none, s2g := fun _ => none }

/-- An estimator result with the highest-confidence source tag. -/
def rTimeline : EstimateResult :=
  { bestEstimate := some { point := locW }, estimateSource := "timelinePath",
    segments := [] }

/-- An environment whose estimator always returns `rTimeline`. -/
def envTimeline : Env := { est := fun _ => some rTimeline, s2g := fun _ => none }

/-- A store that returns the same single-asset page for every page number
and always reports a next page: its pages overlap maximally. -/
def storeDup : Int → Except FetchError SearchPage :=
  fun _ => .ok { items := [assetA], nextPage := some 2 }

/-- A store that serves page 1 and fails on every other page. -/
def storeFlaky : Int → Except FetchError SearchPage :=
  fun p =>
    if p = 1 then .ok { items := [assetA], nextPage := some 2 }
    else .error { message := "down" }

/-- State after the initial fetch from `storeFlaky` on a fresh mount. -/
def stateAfterFirstFetch : State :=
  (refetchNow envNone storeFlaky (initState [])).1

/-- An update port that always fails. -/
def updNever : String → LatLng → Bool := fun _ _ => false

/-- An update port that always succeeds. -/
def updAlways : String → LatLng → Bool := fun _ _ => true

/-- A state with one fetched asset and its accepted pending edit. -/
def sPend : State :=
  { result := some { assets := [assetA], hasNextPage := false }, page := 1,
    alreadySeen := [], updates := [("a", itemA)] }

/-- A state with one fetched asset, no pending edits yet. -/
def sProj : State :=
  { result := some { assets := [assetA], hasNextPage := false }, page := 1,
    alreadySeen := [], updates := [] }

/-- A state whose seen set hides both a projected and a stale id. -/
def sHidden : State :=
  { result := some { assets := [assetA], hasNextPage := false }, page := 1,
    alreadySeen := ["a", "z"], updates := [] }

/-! ### Lemmas about the pending-map primitives -/

theorem lookupU_insertU (m : List (String × Item)) (k : String) (v : Item)
    (k2 : String) :
    lookupU (insertU m k v) k2 = if k = k2 then some v else lookupU m k2 := by
  induction m with
  | nil =>
      by_cases h : k = k2 <;> simp [insertU, lookupU, h]
  | cons e rest ih =>
      obtain ⟨k', v'⟩ := e
      by_cases h1 : k' = k
      · subst h1
        by_cases h2 : k' = k2 <;> simp [insertU, lookupU, h2]
      · by_cases h2 : k' = k2
        · subst h2
          have hne : ¬ k = k' := fun h => h1 h.symm
          simp [insertU, lookupU, h1, hne]
        · simp [insertU, lookupU, h1, h2, ih]

theorem lookupU_isSome_iff_mem_keys (m : List (String × Item)) (k : String) :
    (lookupU m k).isSome = true ↔ k ∈ keysOf m := by
  induction m with
  | nil => simp [lookupU, keysOf]
  | cons e rest ih =>
      obtain ⟨k', v'⟩ := e
      by_cases h : k' = k
      · subst h
        simp [lookupU, keysOf]
      · have hne : ¬ k = k' := fun hk => h hk.symm
        simp [lookupU, keysOf, h, hne, ih]

theorem lookupU_filter_key (m : List (String × Item)) (p : String → Bool)
    (k : String) :
    lookupU (m.filter (fun e => p e.1)) k =
      if p k then lookupU m k else none := by
  induction m with
  | nil => by_cases h : p k <;> simp [lookupU, h]
  | cons e rest ih =>
      obtain ⟨k', v'⟩ := e
      by_cases hk : k' = k
      · subst hk
        by_cases hp : p k' <;> simp [List.filter, lookupU, hp, ih]
      · by_cases hp : p k' <;> simp [List.filter, lookupU, hp, hk, ih]

theorem lookupU_prunePhase (m : List (String × Item)) (ids : List String)
    (k : String) :
    lookupU (prunePhase m ids) k =
      if k ∈ ids then lookupU m k else none := by
  have h := lookupU_filter_key m (fun x => decide (x ∈ ids)) k
  by_cases hk : k ∈ ids <;> simp [prunePhase, hk] at h ⊢ <;> exact h

theorem lookupU_stepFill_protect (m : List (String × Item)) (it : Item)
    (k : String) (v : Item) (hv : lookupU m k = some v)
    (hloc : v.estimatedLocation.isSome = true) :
    lookupU (stepFill m it) k = some v := by
  by_cases h : it.asset.id = k
  · subst h
    simp only [stepFill, hv]
    rw [if_pos hloc]
    exact hv
  · cases hm : lookupU m it.asset.id with
    | none =>
        simp only [stepFill, hm]
        rw [lookupU_insertU, if_neg h]
        exact hv
    | some w =>
        simp only [stepFill, hm]
        by_cases hw : w.estimatedLocation.isSome = true
        · rw [if_pos hw]; exact hv
        · rw [if_neg hw, lookupU_insertU, if_neg h]; exact hv

theorem lookupU_stepFill_isSome (m : List (String × Item)) (it : Item)
    (k : String) (h : (lookupU m k).isSome = true) :
    (lookupU (stepFill m it) k).isSome = true := by
  cases hm : lookupU m it.asset.id with
  | none =>
      simp only [stepFill, hm]
      rw [lookupU_insertU]
      by_cases hk : it.asset.id = k <;> simp [hk, h]
  | some w =>
      simp only [stepFill, hm]
      by_cases hw : w.estimatedLocation.isSome = true
      · rw [if_pos hw]; exact h
      · rw [if_neg hw, lookupU_insertU]
        by_cases hk : it.asset.id = k <;> simp [hk, h]

theorem lookupU_stepFill_self (m : List (String × Item)) (it : Item) :
    (lookupU (stepFill m it) it.asset.id).isSome = true := by
  cases hm : lookupU m it.asset.id with
  | none =>
      simp only [stepFill, hm]
      rw [lookupU_insertU]
      simp
  | some w =>
      simp only [stepFill, hm]
      by_cases hw : w.estimatedLocation.isSome = true
      · rw [if_pos hw, hm]; rfl
      · rw [if_neg hw, lookupU_insertU]; simp

theorem lookupU_stepFill_origin (m : List (String × Item)) (it : Item)
    (k : String) (v : Item) (h : lookupU (stepFill m it) k = some v) :
    lookupU m k = some v ∨ v = it := by
  cases hm : lookupU m it.asset.id with
  | none =>
      simp only [stepFill, hm] at h
      rw [lookupU_insertU] at h
      by_cases hk : it.asset.id = k
      · right; rw [if_pos hk] at h; exact (Option.some_inj.mp h).symm
      · left; rw [if_neg hk] at h; exact h
  | some w =>
      simp only [stepFill, hm] at h
      by_cases hw : w.estimatedLocation.isSome = true
      · rw [if_pos hw] at h; exact Or.inl h
      · rw [if_neg hw, lookupU_insertU] at h
        by_cases hk : it.asset.id = k
        · right; rw [if_pos hk] at h; exact (Option.some_inj.mp h).symm
        · left; rw [if_neg hk] at h; exact h

theorem lookupU_insertPhase_protect (l : List Item) (m : List (String × Item))
    (k : String) (v : Item) (hv : lookupU m k = some v)
    (hloc : v.estimatedLocation.isSome = true) :
    lookupU (insertPhase m l) k = some v := by
  induction l generalizing m with
  | nil => exact hv
  | cons it rest ih =>
      exact ih (stepFill m it) (lookupU_stepFill_protect m it k v hv hloc)

theorem lookupU_insertPhase_isSome (l : List Item) (m : List (String × Item))
    (k : String) (h : (lookupU m k).isSome = true) :
    (lookupU (insertPhase m l) k).isSome = true := by
  induction l generalizing m with
  | nil => exact h
  | cons it rest ih =>
      exact ih (stepFill m it) (lookupU_stepFill_isSome m it k h)

theorem lookupU_insertPhase_mem (l : List Item) (m : List (String × Item))
    (k : String) (h : k ∈ l.map (fun it => it.asset.id)) :
    (lookupU (insertPhase m l) k).isSome = true := by
  induction l generalizing m with
  | nil => simp at h
  | cons it rest ih =>
      simp only [List.map_cons, List.mem_cons] at h
      cases h with
      | inl h =>
          subst h
          exact lookupU_insertPhase_isSome rest (stepFill m it) _
            (lookupU_stepFill_self m it)
      | inr h => exact ih (stepFill m it) h

theorem lookupU_insertPhase_origin (l : List Item) (m : List (String × Item))
    (k : String) (v : Item) (h : lookupU (insertPhase m l) k = some v) :
    lookupU m k = some v ∨ v ∈ l := by
  induction l generalizing m with
  | nil => exact Or.inl h
  | cons it rest ih =>
      cases ih (stepFill m it) h with
      | inl h1 =>
          cases lookupU_stepFill_origin m it k v h1 with
          | inl h2 => exact Or.inl h2
          | inr h2 => exact Or.inr (by simp [h2])
      | inr h1 => exact Or.inr (List.mem_cons_of_mem _ h1)

/-! ### Lemmas about the merge -/

theorem lookupU_mergeUpdates_protect (m : List (String × Item)) (l : List Item)
    (k : String) (v : Item) (hv : lookupU m k = some v)
    (hloc : v.estimatedLocation.isSome = true)
    (hmem : k ∈ l.map (fun it => it.asset.id)) :
    lookupU (mergeUpdates m l) k = some v := by
  rw [mergeUpdates, lookupU_prunePhase, if_pos hmem]
  exact lookupU_insertPhase_protect l m k v hv hloc

theorem lookupU_mergeUpdates_not_mem (m : List (String × Item)) (l : List Item)
    (k : String) (hmem : k ∉ l.map (fun it => it.asset.id)) :
    lookupU (mergeUpdates m l) k = none := by
  rw [mergeUpdates, lookupU_prunePhase, if_neg hmem]

theorem lookupU_mergeUpdates_isSome_iff (m : List (String × Item))
    (l : List Item) (k : String) :
    (lookupU (mergeUpdates m l) k).isSome = true ↔
      k ∈ l.map (fun it => it.asset.id) := by
  constructor
  · intro h
    by_contra hmem
    rw [lookupU_mergeUpdates_not_mem m l k hmem] at h
    simp at h
  · intro hmem
    rw [mergeUpdates, lookupU_prunePhase, if_pos hmem]
    exact lookupU_insertPhase_mem l m k hmem

theorem mem_keys_mergeUpdates (m : List (String × Item)) (l : List Item)
    (k : String) :
    k ∈ keysOf (mergeUpdates m l) ↔ k ∈ l.map (fun it => it.asset.id) := by
  rw [← lookupU_isSome_iff_mem_keys]
  exact lookupU_mergeUpdates_isSome_iff m l k

theorem lookupU_mergeUpdates_origin (m : List (String × Item)) (l : List Item)
    (k : String) (v : Item) (h : lookupU (mergeUpdates m l) k = some v) :
    lookupU m k = some v ∨ v ∈ l := by
  rw [mergeUpdates, lookupU_prunePhase] at h
  by_cases hmem : k ∈ l.map (fun it => it.asset.id)
  · rw [if_pos hmem] at h
    exact lookupU_insertPhase_origin l m k v h
  · rw [if_neg hmem] at h
    exact absurd h (by simp)

theorem mergeUpdates_nil (m : List (String × Item)) :
    mergeUpdates m [] = [] := by
  rw [mergeUpdates]
  simp [insertPhase, prunePhase, List.filter_eq_nil_iff]

/-! ### Safety of projected candidates and preservation of `SafeUpd` -/

theorem projectAsset_safe (env : Env) (a : Asset)
    (h : (projectAsset env a).confirmEdit = true) :
    (projectAsset env a).estimatedLocation.isSome = true := by
  cases he : env.est a.fileCreatedAt with
  | none => simp [projectAsset, he] at h
  | some r =>
      simp only [projectAsset, he] at h ⊢
      simp only [Bool.and_eq_true] at h
      simp [Option.isSome_map', h.1.1]

theorem itemsOf_safe (env : Env) (s : State) (it : Item)
    (hmem : it ∈ itemsOf env s) (h : it.confirmEdit = true) :
    it.estimatedLocation.isSome = true := by
  have h1 : it ∈ allAssetsOf env s := List.mem_of_mem_filter hmem
  obtain ⟨a, _, rfl⟩ := List.mem_map.mp h1
  exact projectAsset_safe env a h

theorem SafeUpd_nil : SafeUpd [] := by
  intro k v hv
  simp [lookupU] at hv

theorem SafeUpd_mergeUpdates (m : List (String × Item)) (l : List Item)
    (hm : SafeUpd m)
    (hl : ∀ it ∈ l, it.confirmEdit = true → it.estimatedLocation.isSome = true) :
    SafeUpd (mergeUpdates m l) := by
  intro k v hv hc
  cases lookupU_mergeUpdates_origin m l k v hv with
  | inl h => exact hm k v h hc
  | inr h => exact hl v h hc

theorem SafeUpd_reactMerge (env : Env) (s : State) (h : SafeUpd s.updates) :
    SafeUpd (reactMerge env s).updates :=
  SafeUpd_mergeUpdates s.updates (itemsOf env s) h (itemsOf_safe env s)

theorem lookupU_updateEntry (m : List (String × Item)) (k : String)
    (f : Item → Item) (k2 : String) :
    lookupU (updateEntry m k f) k2 =
      if k = k2 then (lookupU m k2).map f else lookupU m k2 := by
  induction m with
  | nil => by_cases h : k = k2 <;> simp [updateEntry, lookupU, h]
  | cons e rest ih =>
      obtain ⟨k', v'⟩ := e
      simp only [updateEntry]
      by_cases h2 : k' = k
      · rw [if_pos h2]
        by_cases h1 : k' = k2
        · have hk : k = k2 := h2 ▸ h1
          simp only [lookupU, if_pos h1, if_pos hk, Option.map_some']
        · have hk : ¬ k = k2 := fun hkk => h1 (h2.trans hkk)
          simp only [lookupU, if_neg h1, if_neg hk, ih]
      · rw [if_neg h2]
        by_cases h1 : k' = k2
        · have hk : ¬ k = k2 := fun hkk => h2 (h1.trans hkk.symm)
          simp only [lookupU, if_pos h1, if_neg hk]
        · simp only [lookupU, if_neg h1, ih]

theorem SafeUpd_fetchHandler (store : Int → Except FetchError SearchPage)
    (s : State) (h : SafeUpd s.updates) :
    SafeUpd (fetchHandler store s).1.updates := by
  unfold fetchHandler
  cases store s.page with
  | error e => exact h
  | ok p => exact h

theorem SafeUpd_refetchNow (env : Env) (store : Int → Except FetchError SearchPage)
    (s : State) (h : SafeUpd s.updates) :
    SafeUpd (refetchNow env store s).1.updates := by
  unfold refetchNow
  cases hf : fetchHandler store s with
  | mk s2 e =>
      have h2 : SafeUpd s2.updates := by
        have := SafeUpd_fetchHandler store s h
        rw [hf] at this
        exact this
      cases e with
      | none => exact SafeUpd_reactMerge env s2 h2
      | some e => exact h2

theorem SafeUpd_loadMore (env : Env) (store : Int → Except FetchError SearchPage)
    (s : State) (h : SafeUpd s.updates) :
    SafeUpd (loadMore env store s).1.updates :=
  SafeUpd_refetchNow env store { s with page := s.page + 1 } h

theorem SafeUpd_filterChangeReaction (env : Env)
    (store : Int → Except FetchError SearchPage) (s : State)
    (h : SafeUpd s.updates) :
    SafeUpd (filterChangeReaction env store s).1.updates :=
  SafeUpd_refetchNow env store (filterClear env s)
    (SafeUpd_reactMerge env { s with result := none, page := 1 } h)

theorem SafeUpd_confirm (env : Env) (updOk : String → LatLng → Bool)
    (pageSize : Int) (hideRest : Bool) (s : State) (h : SafeUpd s.updates) :
    SafeUpd (confirm env updOk pageSize hideRest s).1.updates := by
  unfold confirm
  by_cases hall : (confirmedUpdatesOf s).all (itemUpdateOk updOk) = true
  · simp only [hall, if_true]
    exact SafeUpd_reactMerge env _ SafeUpd_nil
  · simp only [hall, if_false]
    exact h

theorem SafeUpd_setConfirmFalse (s : State) (k : String) (h : SafeUpd s.updates) :
    SafeUpd (setConfirm s k false).updates := by
  intro k2 v hv hc
  unfold setConfirm at hv
  simp only at hv
  rw [lookupU_updateEntry] at hv
  by_cases hk : k = k2
  · rw [if_pos hk] at hv
    cases hw : lookupU s.updates k2 with
    | none => rw [hw] at hv; simp at hv
    | some w =>
        rw [hw] at hv
        simp only [Option.map_some'] at hv
        have : v.confirmEdit = false := by
          rw [← Option.some_inj.mp hv]
        rw [this] at hc
        simp at hc
  · rw [if_neg hk] at hv
    exact h k2 v hv hc

theorem SafeUpd_setConfirmTrue (s : State) (k : String)
    (hg : ∃ v, lookupU s.updates k = some v ∧ v.estimatedLocation.isSome = true)
    (h : SafeUpd s.updates) :
    SafeUpd (setConfirm s k true).updates := by
  intro k2 v hv hc
  unfold setConfirm at hv
  simp only at hv
  rw [lookupU_updateEntry] at hv
  by_cases hk : k = k2
  · rw [if_pos hk] at hv
    obtain ⟨w, hw, hwloc⟩ := hg
    rw [hk] at hw
    rw [hw] at hv
    simp only [Option.map_some'] at hv
    have : v.estimatedLocation = w.estimatedLocation := by
      rw [← Option.some_inj.mp hv]
    rw [this]
    exact hwloc
  · rw [if_neg hk] at hv
    exact h k2 v hv hc

theorem SafeUpd_dragEdit (s : State) (k : String) (loc : LatLng)
    (h : SafeUpd s.updates) :
    SafeUpd (dragEdit s k loc).updates := by
  intro k2 v hv hc
  unfold dragEdit at hv
  simp only at hv
  rw [lookupU_updateEntry] at hv
  by_cases hk : k = k2
  · rw [if_pos hk] at hv
    cases hw : lookupU s.updates k2 with
    | none => rw [hw] at hv; simp at hv
    | some w =>
        rw [hw] at hv
        simp only [Option.map_some'] at hv
        have : v.estimatedLocation = some loc := by
          rw [← Option.some_inj.mp hv]
        simp [this]
  · rw [if_neg hk] at hv
    exact h k2 v hv hc

theorem SafeUpd_step (s s2 : State) (hs : Step s s2) (h : SafeUpd s.updates) :
    SafeUpd s2.updates := by
  cases hs with
  | load env store s => exact SafeUpd_loadMore env store s h
  | refetch env store s => exact SafeUpd_refetchNow env store s h
  | filterChange env store s => exact SafeUpd_filterChangeReaction env store s h
  | commit env updOk pageSize hideRest s =>
      exact SafeUpd_confirm env updOk pageSize hideRest s h
  | unhide env s => exact SafeUpd_reactMerge env (clearHiddenOp env s) h
  | toggleOff s k => exact SafeUpd_setConfirmFalse s k h
  | toggleOn s k hg => exact SafeUpd_setConfirmTrue s k hg h
  | drag s k loc => exact SafeUpd_dragEdit s k loc h

/-! ### Lemmas about fetching and accumulation -/

theorem refetchNow_ok (env : Env) (store : Int → Except FetchError SearchPage)
    (s : State) (p : SearchPage) (hok : store s.page = .ok p) :
    (refetchNow env store s).1 =
      reactMerge env
        { s with result := some { assets := accumulated s ++ p.items
                                  hasNextPage := p.nextPage.isSome } } ∧
    (refetchNow env store s).2 = none := by
  simp [refetchNow, fetchHandler, hok]

theorem refetchNow_error (env : Env) (store : Int → Except FetchError SearchPage)
    (s : State) (e : FetchError) (herr : store s.page = .error e) :
    refetchNow env store s = (s, some e) := by
  simp [refetchNow, fetchHandler, herr]

theorem runFetches_spec (env : Env) (store : Int → Except FetchError SearchPage)
    (n : Nat) :
    ∀ (pages : Nat → SearchPage) (s : State),
      (∀ k : Nat, k < n → store (s.page + 1 + (k : Int)) = .ok (pages k)) →
      accumulated (runFetches env store s n) =
        accumulated s ++ ((List.range n).map (fun k => (pages k).items)).flatten ∧
      (runFetches env store s n).page = s.page + (n : Int) := by
  induction n with
  | zero =>
      intro pages s _
      simp [runFetches]
  | succ n ih =>
      intro pages s hok
      have h0 : store (s.page + 1) = .ok (pages 0) := by
        have h := hok 0 (Nat.succ_pos n)
        simpa using h
      have hload := refetchNow_ok env store { s with page := s.page + 1 }
        (pages 0) h0
      have hacc : accumulated (loadMore env store s).1 =
          accumulated s ++ (pages 0).items := by
        rw [loadMore, hload.1]
        simp [reactMerge, accumulated]
      have hpg : (loadMore env store s).1.page = s.page + 1 := by
        rw [loadMore, hload.1]
        simp [reactMerge]
      have hok2 : ∀ k : Nat, k < n →
          store ((loadMore env store s).1.page + 1 + (k : Int)) =
            .ok (pages (k + 1)) := by
        intro k hk
        have h1 := hok (k + 1) (Nat.succ_lt_succ hk)
        rw [hpg]
        have harg : s.page + 1 + 1 + (k : Int) = s.page + 1 + ((k + 1 : Nat) : Int) := by
          push_cast
          ring
        rw [harg]
        exact h1
      obtain ⟨ih1, ih2⟩ := ih (fun k => pages (k + 1)) (loadMore env store s).1 hok2
      have hrun : runFetches env store s (n + 1) =
          runFetches env store (loadMore env store s).1 n := rfl
      constructor
      · rw [hrun, ih1, hacc, List.range_succ_eq_map]
        simp [List.map_map, Function.comp_def, Nat.succ_eq_add_one,
          List.append_assoc]
      · rw [hrun, ih2, hpg]
        push_cast
        ring

theorem lookupU_refetch_from_empty (env : Env)
    (store : Int → Except FetchError SearchPage) (s : State) (p : SearchPage)
    (hok : store s.page = .ok p) (hupd : s.updates = []) :
    ∀ k v, lookupU (refetchNow env store s).1.updates k = some v →
      v ∈ itemsOf env (refetchNow env store s).1 := by
  intro k v hv
  obtain ⟨hre, _⟩ := refetchNow_ok env store s p hok
  rw [hre] at hv ⊢
  have hv2 : lookupU (mergeUpdates s.updates
      (itemsOf env
        { s with result := some { assets := accumulated s ++ p.items
                                  hasNextPage := p.nextPage.isSome } })) k =
      some v := hv
  rw [hupd] at hv2
  cases lookupU_mergeUpdates_origin [] _ k v hv2 with
  | inl h1 => simp [lookupU] at h1
  | inr h1 => exact h1

/-! ### The claims -/

/-- C1: Merge protects estimates — across any sequence of `watch(items)`
merges, once the pending map holds an entry with a non-absent estimate for
an id, no merge replaces that entry while the id stays in every visible
list; and an entry is deleted (the lookup becomes `none`) exactly when the
id has left the visible list. -/
theorem merge_protects_estimates :
    (∀ (m : List (String × Item)) (ls : List (List Item)) (k : String) (v : Item),
      lookupU m k = some v → v.estimatedLocation.isSome = true →
      (∀ l ∈ ls, k ∈ l.map (fun it => it.asset.id)) →
      lookupU (ls.foldl mergeUpdates m) k = some v) ∧
    (∀ (m : List (String × Item)) (l : List Item) (k : String),
      k ∉ l.map (fun it => it.asset.id) →
      lookupU (mergeUpdates m l) k = none) := by
  constructor
  · intro m ls
    induction ls generalizing m with
    | nil =>
        intro k v hv _ _
        exact hv
    | cons l rest ih =>
        intro k v hv hloc hmem
        have h1 : lookupU (mergeUpdates m l) k = some v :=
          lookupU_mergeUpdates_protect m l k v hv hloc
            (hmem l (List.mem_cons_self l rest))
        exact ih (mergeUpdates m l) k v h1 hloc
          (fun l2 hl2 => hmem l2 (List.mem_cons_of_mem l hl2))
  · exact lookupU_mergeUpdates_not_mem

/-- Witness for C1 at a concrete map and one re-projection. -/
theorem merge_protects_estimates_witness :
    lookupU (List.foldl mergeUpdates [("a", itemA)] [[itemA]]) "a" =
      some itemA :=
  merge_protects_estimates.1 [("a", itemA)] [[itemA]] "a" itemA (by decide)
    (by decide) (by decide)

/-- C2: Pending map key invariant — after a merge flush, the key set of the
pending edit map is exactly the id set of the current visible list. -/
theorem pending_map_key_invariant (env : Env) (s : State) (k : String) :
    k ∈ keysOf (reactMerge env s).updates ↔
      k ∈ (itemsOf env s).map (fun it => it.asset.id) :=
  mem_keys_mergeUpdates s.updates (itemsOf env s) k

/-- Witness for C2 on a state with one visible asset. -/
theorem pending_map_key_invariant_witness :
    "a" ∈ keysOf (reactMerge envNone sProj).updates :=
  (pending_map_key_invariant envNone sProj "a").mpr (by decide)

/-- C3: Commit atomicity — when at least one per-asset update of the batch
fails, `confirm` reports an error and the whole state (pending edit map,
seen set, page and accumulated results) is exactly the pre-commit state. -/
theorem commit_failure_preserves_state (env : Env)
    (updOk : String → LatLng → Bool) (pageSize : Int) (hideRest : Bool)
    (s : State)
    (hfail : ∃ it, it ∈ confirmedUpdatesOf s ∧ itemUpdateOk updOk it = false) :
    (confirm env updOk pageSize hideRest s).1 = s ∧
    (confirm env updOk pageSize hideRest s).2.isSome = true := by
  obtain ⟨it, hmem, hbad⟩ := hfail
  have hall : (confirmedUpdatesOf s).all (itemUpdateOk updOk) = false := by
    by_contra hcon
    have htrue : (confirmedUpdatesOf s).all (itemUpdateOk updOk) = true := by
      cases hx : (confirmedUpdatesOf s).all (itemUpdateOk updOk) with
      | false => exact absurd hx hcon
      | true => rfl
    have h1 := List.all_eq_true.mp htrue it hmem
    rw [hbad] at h1
    exact Bool.false_ne_true h1
  simp [confirm, hall]

/-- Witness for C3: one confirmed edit whose store update fails. -/
theorem commit_failure_preserves_state_witness :
    (confirm envNone updNever 10 false sPend).1 = sPend ∧
    (confirm envNone updNever 10 false sPend).2.isSome = true :=
  commit_failure_preserves_state envNone updNever 10 false sPend
    ⟨itemA, by decide, by decide⟩

/-- C4 (amended): the accumulator concatenates the successfully returned
pages in fetch order — no dedup is performed, so an asset id repeats
whenever the store returns overlapping pages.  `afterFetches ... n` is an
initial fetch plus `n` Load-more clicks, i.e. `n + 1` fetch calls. -/
theorem accumulation_concat (env : Env)
    (store : Int → Except FetchError SearchPage) (seen0 : List String)
    (n : Nat) (pages : Nat → SearchPage)
    (hok : ∀ k : Nat, k ≤ n → store (1 + (k : Int)) = .ok (pages k)) :
    accumulated (afterFetches env store seen0 n) =
      ((List.range (n + 1)).map (fun k => (pages k).items)).flatten := by
  have h0 : store 1 = .ok (pages 0) := by
    have h := hok 0 (Nat.zero_le n)
    simpa using h
  have hinit := refetchNow_ok env store (initState seen0) (pages 0) h0
  have hacc0 : accumulated (refetchNow env store (initState seen0)).1 =
      (pages 0).items := by
    rw [hinit.1]
    simp [reactMerge, accumulated, initState]
  have hpg0 : (refetchNow env store (initState seen0)).1.page = 1 := by
    rw [hinit.1]
    simp [reactMerge, initState]
  have hok2 : ∀ k : Nat, k < n →
      store ((refetchNow env store (initState seen0)).1.page + 1 + (k : Int)) =
        .ok (pages (k + 1)) := by
    intro k hk
    rw [hpg0]
    have h1 := hok (k + 1) (Nat.succ_le_of_lt hk)
    have harg : (1 : Int) + 1 + (k : Int) = 1 + ((k + 1 : Nat) : Int) := by
      push_cast
      ring
    rw [harg]
    exact h1
  obtain ⟨h1, _⟩ := runFetches_spec env store n (fun k => pages (k + 1))
    (refetchNow env store (initState seen0)).1 hok2
  rw [afterFetches, h1, hacc0, List.range_succ_eq_map]
  simp [List.map_map, Function.comp_def, Nat.succ_eq_add_one]

/-- Witness for C4's amended statement: two maximally overlapping pages. -/
theorem accumulation_concat_witness :
    accumulated (afterFetches envNone storeDup [] 1) = [assetA, assetA] :=
  (accumulation_concat envNone storeDup [] 1
      (fun _ => { items := [assetA], nextPage := some 2 })
      (fun _ _ => rfl)).trans (by rfl)

/-- Counterexample to C4 as stated: with a store whose pages overlap, after
two fetch calls the accumulated id list is `["a", "a"]`, so an asset id
appears twice — the claimed dedup does not happen. -/
theorem dedup_counterexample :
    (accumulated (afterFetches envNone storeDup [] 1)).map (fun a => a.id) =
      ["a", "a"] ∧
    ¬ ((accumulated (afterFetches envNone storeDup [] 1)).map
        (fun a => a.id)).Nodup := by
  refine ⟨by decide, by decide⟩

/-- C5: Page recompute formula and lower bound — after a fully successful
commit the page is `Math.ceil((total - confirmed) / pageSize) || 1`, which
equals the claimed `max 1 (ceil ...)` and is at least `1`.  The two
hypotheses on the pending map keys (no duplicates, every key a visible id)
are the reachable-state merge invariant established by C2. -/
theorem page_recompute_formula (env : Env) (updOk : String → LatLng → Bool)
    (pageSize : Int) (hideRest : Bool) (s : State)
    (hps : 1 ≤ pageSize)
    (hnd : (keysOf s.updates).Nodup)
    (hsub : ∀ k ∈ keysOf s.updates,
      k ∈ (itemsOf env s).map (fun it => it.asset.id))
    (hok : (confirmedUpdatesOf s).all (itemUpdateOk updOk) = true) :
    (confirm env updOk pageSize hideRest s).2 = none ∧
    (confirm env updOk pageSize hideRest s).1.page =
      max 1 (ceilDivInt
        (((itemsOf env s).length : Int) - ((confirmedUpdatesOf s).length : Int))
        pageSize) ∧
    1 ≤ (confirm env updOk pageSize hideRest s).1.page := by
  have hcu : (confirmedUpdatesOf s).length ≤ s.updates.length := by
    calc (confirmedUpdatesOf s).length
        ≤ (s.updates.map Prod.snd).length := List.length_filter_le _ _
      _ = s.updates.length := List.length_map _ _
  have hkeys : (keysOf s.updates).length ≤
      ((itemsOf env s).map (fun it => it.asset.id)).length :=
    (hnd.subperm (fun x hx => hsub x hx)).length_le
  have hkl : (keysOf s.updates).length = s.updates.length := List.length_map _ _
  have hil : ((itemsOf env s).map (fun it => it.asset.id)).length =
      (itemsOf env s).length := List.length_map _ _
  have hct : (confirmedUpdatesOf s).length ≤ (itemsOf env s).length := by
    omega
  have hctZ : ((confirmedUpdatesOf s).length : Int) ≤
      ((itemsOf env s).length : Int) := by
    exact_mod_cast hct
  have hq0 : 0 ≤ ceilDivInt
      (((itemsOf env s).length : Int) - ((confirmedUpdatesOf s).length : Int))
      pageSize := by
    unfold ceilDivInt
    exact Int.ediv_nonneg (by omega) (by omega)
  have hpage : (confirm env updOk pageSize hideRest s).1.page =
      jsOr1 (ceilDivInt
        (((itemsOf env s).length : Int) - ((confirmedUpdatesOf s).length : Int))
        pageSize) := by
    simp [confirm, hok, reactMerge]
  refine ⟨by simp [confirm, hok], ?_, ?_⟩
  · rw [hpage]
    unfold jsOr1
    split <;> omega
  · rw [hpage]
    unfold jsOr1
    split <;> omega

/-- Witness for C5: one visible asset, its edit confirmed, updates succeed. -/
theorem page_recompute_formula_witness :
    1 ≤ (confirm envNone updAlways 10 false sPend).1.page :=
  (page_recompute_formula envNone updAlways 10 false sPend (by decide)
    (by decide) (by decide) (by decide)).2.2

/-- C6: Default acceptance — a projected candidate is accepted by default
iff the estimator returned a result with a present `bestEstimate`, its
source is the highest-confidence tag `"timelinePath"`, and the filename
does not contain "screenshot" case-insensitively; and when the estimator
returns nothing the candidate has an absent estimate, empty geometry and
`accepted = false`. -/
theorem candidate_default_acceptance (env : Env) (a : Asset) :
    ((projectAsset env a).confirmEdit = true ↔
      ((∃ r, env.est a.fileCreatedAt = some r ∧ r.bestEstimate.isSome = true ∧
          r.estimateSource = "timelinePath") ∧
        isScreenshotName a.originalFileName = false)) ∧
    (env.est a.fileCreatedAt = none →
      (projectAsset env a).estimatedLocation = none ∧
      (projectAsset env a).geometry = [] ∧
      (projectAsset env a).confirmEdit = false) := by
  constructor
  · cases he : env.est a.fileCreatedAt with
    | none => simp [projectAsset, he]
    | some r =>
        simp only [projectAsset, he]
        constructor
        · intro h
          simp only [Bool.and_eq_true, decide_eq_true_eq,
            Bool.not_eq_true'] at h
          exact ⟨⟨r, rfl, h.1.1, h.1.2⟩, h.2⟩
        · rintro ⟨⟨r2, hr2, hb, hsrc⟩, hscr⟩
          have hrr : r2 = r := (Option.some_inj.mp hr2).symm
          subst hrr
          simp [hb, hsrc, hscr]
  · intro he
    simp [projectAsset, he]

/-- Witness for C6: a timeline-sourced estimate on a non-screenshot file. -/
theorem candidate_default_acceptance_witness :
    (projectAsset envTimeline assetA).confirmEdit = true :=
  (candidate_default_acceptance envTimeline assetA).1.mpr
    ⟨⟨rTimeline, rfl, rfl, rfl⟩, by decide⟩

/-- C7: Filter-change reaction — the watcher clears the response and resets
the page, the merge flush then empties the pending map, and the fresh fetch
accumulates exactly the new first page; every pending entry afterwards
comes from the new projection, so nothing recorded under the previous
criteria survives. -/
theorem filter_change_resets_session (env : Env)
    (store : Int → Except FetchError SearchPage) (s : State) (p : SearchPage)
    (hok : store 1 = .ok p) :
    (filterClear env s).updates = [] ∧
    (filterClear env s).page = 1 ∧
    accumulated (filterClear env s) = [] ∧
    (filterChangeReaction env store s).1.page = 1 ∧
    accumulated (filterChangeReaction env store s).1 = p.items ∧
    (∀ k v, lookupU (filterChangeReaction env store s).1.updates k = some v →
      v ∈ itemsOf env (filterChangeReaction env store s).1) := by
  have hitems : itemsOf env { s with result := none, page := 1 } = [] := by
    simp [itemsOf, allAssetsOf, accumulated]
  have hclear : (filterClear env s).updates = [] := by
    simp only [filterClear, reactMerge]
    rw [hitems]
    exact mergeUpdates_nil _
  have hok2 : store (filterClear env s).page = .ok p := hok
  obtain ⟨hre, _⟩ := refetchNow_ok env store (filterClear env s) p hok2
  refine ⟨hclear, rfl, rfl, ?_, ?_, ?_⟩
  · show (refetchNow env store (filterClear env s)).1.page = 1
    rw [hre]
    rfl
  · show accumulated (refetchNow env store (filterClear env s)).1 = p.items
    rw [hre]
    rfl
  · exact lookupU_refetch_from_empty env store (filterClear env s) p hok2 hclear

/-- Witness for C7 with a concrete store and a stale pending edit. -/
theorem filter_change_resets_session_witness :
    (filterClear envNone sPend).updates = [] ∧
    accumulated (filterChangeReaction envNone storeDup sPend).1 = [assetA] :=
  ⟨(filter_change_resets_session envNone storeDup sPend
      { items := [assetA], nextPage := some 2 } rfl).1,
    (filter_change_resets_session envNone storeDup sPend
      { items := [assetA], nextPage := some 2 } rfl).2.2.2.2.1⟩

/-- C8 (amended): a failed Load-more fetch surfaces the error and leaves
the accumulated list, the pending map, the seen set and the response
untouched, but the page counter was already incremented by `page++` before
the fetch ran and is not rolled back. -/
theorem fetch_failure_keeps_accumulated (env : Env)
    (store : Int → Except FetchError SearchPage) (s : State) (e : FetchError)
    (herr : store (s.page + 1) = .error e) :
    (loadMore env store s).2 = some e ∧
    accumulated (loadMore env store s).1 = accumulated s ∧
    (loadMore env store s).1.page = s.page + 1 ∧
    (loadMore env store s).1.updates = s.updates ∧
    (loadMore env store s).1.alreadySeen = s.alreadySeen ∧
    (loadMore env store s).1.result = s.result := by
  have h := refetchNow_error env store { s with page := s.page + 1 } e herr
  rw [loadMore, h]
  simp [accumulated]

/-- Witness for C8's amended statement on a store that fails on page 2. -/
theorem fetch_failure_keeps_accumulated_witness :
    (loadMore envNone storeFlaky stateAfterFirstFetch).2 =
      some { message := "down" } ∧
    accumulated (loadMore envNone storeFlaky stateAfterFirstFetch).1 =
      accumulated stateAfterFirstFetch :=
  ⟨(fetch_failure_keeps_accumulated envNone storeFlaky stateAfterFirstFetch
      { message := "down" } (by rfl)).1,
    (fetch_failure_keeps_accumulated envNone storeFlaky stateAfterFirstFetch
      { message := "down" } (by rfl)).2.1⟩

/-- Counterexample to C8 as stated: on the fetch failure the page counter
is 2 although it was 1 before the call — the cursor did advance. -/
theorem fetch_failure_page_counterexample :
    stateAfterFirstFetch.page = 1 ∧
    (loadMore envNone storeFlaky stateAfterFirstFetch).1.page = 2 ∧
    ¬ ((loadMore envNone storeFlaky stateAfterFirstFetch).1.page =
        stateAfterFirstFetch.page) := by
  refine ⟨by decide, by decide, by decide⟩

/-- C9: in every reachable state, every pending entry with
`confirmEdit = true` has a present `estimatedLocation`, so the non-null
assertions `item.estimatedLocation!.lat/lng` in `confirm` never dereference
an absent value. -/
theorem confirmed_entries_have_location (seen0 : List String) (s : State)
    (h : Reachable seen0 s) : SafeUpd s.updates := by
  have h2 : Relation.ReflTransGen Step (initState seen0) s := h
  clear h
  induction h2 with
  | refl => exact SafeUpd_nil
  | tail _ hbc ih => exact SafeUpd_step _ _ hbc ih

/-- Witness for C9 at the initial state. -/
theorem confirmed_entries_have_location_witness :
    SafeUpd (initState []).updates :=
  confirmed_entries_have_location [] (initState [])
    Relation.ReflTransGen.refl

/-- C10: `clearHidden` removes from the seen set exactly the ids that are
both seen and present in the current projected set; seen ids outside the
projected set survive, and the pending map, page and response are not
modified by the operation. -/
theorem unhide_scope_and_frame (env : Env) (s : State) :
    (∀ x, x ∈ (clearHiddenOp env s).alreadySeen ↔
      (x ∈ s.alreadySeen ∧
        x ∉ (allAssetsOf env s).map (fun it => it.asset.id))) ∧
    (clearHiddenOp env s).updates = s.updates ∧
    (clearHiddenOp env s).page = s.page ∧
    (clearHiddenOp env s).result = s.result := by
  refine ⟨?_, rfl, rfl, rfl⟩
  intro x
  simp [clearHiddenOp, List.mem_filter]

/-- Witness for C10: a stale hidden id survives the unhide. -/
theorem unhide_scope_and_frame_witness :
    "z" ∈ (clearHiddenOp envNone sHidden).alreadySeen :=
  ((unhide_scope_and_frame envNone sHidden).1 "z").mpr (by decide)

end Reconciler
